import Mathlib

/-!
Verification of the framework-powerd daemon core logic.

Shallow embedding of the Go sources:
  cmd/framework-powerd/main.go      (updatePowerState decision closure)
  internal/power/manager.go         (PowerManager, ProcessPauser, findAllDescendants)
  internal/detector/steam.go        (SteamDetector.findGameRoot)
  internal/monitor/idle.go          (IdleMonitor.watchDevice, IdleMonitor.runTicker)
  internal/power/monitor.go         (PowerMonitor.updateCPUMetrics, PowerMonitor.GetStatus)

OS-level effects (signals, sysfs writes, external tool invocations) are
represented as explicit action/signal lists in the return values; the process
table and /proc reads are passed in as explicit environment functions.
float64 wattage values are modelled as rationals.
-/

set_option maxRecDepth 8192

namespace FrameworkPowerd

/-! ## String containment, modelling Go strings.Contains -/

/-- Boolean test that the first character list occurs at the head of the second. -/
def isPrefixL : List Char → List Char → Bool
  | [], _ => true
  | _ :: _, [] => false
  | a :: as, b :: bs => a == b && isPrefixL as bs

/-- Boolean test that the first character list occurs contiguously anywhere in the second. -/
def containsSub (pat : List Char) : List Char → Bool
  | [] => isPrefixL pat []
  | c :: cs => isPrefixL pat (c :: cs) || containsSub pat cs

/-- Models Go strings.Contains(s, pat). -/
def strContains (s pat : String) : Bool := containsSub pat.data s.data

/-! ## Power mode decision engine: updatePowerState (cmd/framework-powerd/main.go 119-176)

The closure reads facts {isIdle, isRemotePlay, isGameRunning, gamePID} and the
pauser state; its observable effects are which pauser call and which mode-set
call it performs.  SetDefaultActive simply calls SetPerformance with reason
"Active Usage" (internal/power/manager.go 116-118), so the applied mode in the
default-active branch is also performance. -/

inductive Mode
  | performance
  | powersave
  deriving DecidableEq

/-- Observable outcome of one evaluation of the updatePowerState closure. -/
structure UpdateResult where
  pauseInvoked : Bool
  resumeInvoked : Bool
  modeSet : Mode
  reason : String
  deriving DecidableEq

/-- Embeds the updatePowerState closure from cmd/framework-powerd/main.go. -/
def updatePowerState (isIdle isRemotePlay isGameRunning : Bool) (gamePID : Int)
    (pauserIsPaused : Bool) : UpdateResult :=
  let shouldIdle := if isRemotePlay && isGameRunning then false else isIdle
  if shouldIdle then
    { pauseInvoked := isGameRunning && decide (gamePID > 0) && !pauserIsPaused
      resumeInvoked := false
      modeSet := Mode.powersave
      reason := "System Idle" }
  else
    { pauseInvoked := false
      resumeInvoked := pauserIsPaused
      modeSet := Mode.performance
      reason := if isGameRunning || isRemotePlay then "Game/Remote Active" else "Active Usage" }

/-! ## ProcessPauser (internal/power/manager.go 286-399)

The pauser state is the pair (isPaused, pausedPIDs).  Signals actually sent are
returned as an explicit list; the descendant lookup (findAllDescendants) is an
environment parameter since it reads the live process table. -/

inductive Sig
  | stop
  | cont
  deriving DecidableEq

structure PauserState where
  isPaused : Bool
  pausedPIDs : List Int
  deriving DecidableEq

/-- Result of a pauser operation: the new state, the signals sent (in order),
and the returned error, if any. -/
structure PauseOutcome where
  state : PauserState
  signals : List (Int × Sig)
  err : Option String
  deriving DecidableEq

namespace ProcessPauser

/-- Embeds ProcessPauser.Pause (internal/power/manager.go 299-327).
desc models findAllDescendants on the live process table. -/
def Pause (desc : Int → List Int) (s : PauserState) (rootPID : Int) : PauseOutcome :=
  if s.isPaused then
    { state := s, signals := [], err := none }
  else if rootPID ≤ 0 then
    { state := s, signals := [], err := some "invalid pid" }
  else
    let targets := rootPID :: desc rootPID
    { state := { isPaused := true, pausedPIDs := targets }
      signals := targets.map (fun p => (p, Sig.stop))
      err := none }

/-- Embeds ProcessPauser.Resume (internal/power/manager.go 330-350). -/
def Resume (s : PauserState) : PauseOutcome :=
  if !s.isPaused then
    { state := s, signals := [], err := none }
  else
    { state := { isPaused := false, pausedPIDs := [] }
      signals := s.pausedPIDs.map (fun p => (p, Sig.cont))
      err := none }

/-- Embeds ProcessPauser.IsPaused (internal/power/manager.go 353-357). -/
def IsPaused (s : PauserState) : Bool := s.isPaused

end ProcessPauser

/-! ## SyncState (internal/power/manager.go 360-399)

Reads /proc/pid/stat (modelled by statRead), locates the last closing paren,
takes the first whitespace field after it, and adopts Paused with a fresh
descendant set on "T", Running with a cleared set on any other parsed state.
A read error or an unparseable line returns early, leaving the state as it was. -/

/-- Accumulating splitter behind goFields: acc holds the current field in
reverse. -/
def goFieldsAux : List Char → List Char → List String
  | acc, [] => if acc.isEmpty then [] else [String.mk acc.reverse]
  | acc, c :: cs =>
    if c.isWhitespace then
      if acc.isEmpty then goFieldsAux [] cs
      else String.mk acc.reverse :: goFieldsAux [] cs
    else goFieldsAux (c :: acc) cs

/-- Go strings.Fields: split on whitespace, dropping empty fields. -/
def goFields (s : String) : List String := goFieldsAux [] s.data

/-- Index of the last occurrence of a character, modelling Go strings.LastIndex
on a single-character needle. -/
def lastIdxOf (c : Char) (l : List Char) : Option Nat :=
  ((List.range l.length).filter (fun i => l.getD i ' ' == c)).getLast?

namespace ProcessPauser

/-- Embeds ProcessPauser.SyncState (internal/power/manager.go 360-399).
The Go slice expression str[lastParen+2:] at manager.go:376 panics when
lastParen+2 exceeds the content length, i.e. when the closing paren is the
final byte of the stat content; that crash is returned as none, every normal
return as some of the resulting pauser state. -/
def SyncState (desc : Int → List Int) (statRead : Int → Option String)
    (s : PauserState) (rootPID : Int) : Option PauserState :=
  match statRead rootPID with
  | none => some s
  | some str =>
    match lastIdxOf ')' str.data with
    | none => some s
    | some i =>
      if str.data.length < i + 2 then none
      else
        let rest := String.mk (str.data.drop (i + 2))
        match goFields rest with
        | [] => some s
        | st :: _ =>
          if st = "T" then
            some { isPaused := true, pausedPIDs := rootPID :: desc rootPID }
          else
            some { isPaused := false, pausedPIDs := [] }

end ProcessPauser

/-! ## findGameRoot (internal/detector/steam.go 121-151)

Walks up the parent chain for at most 10 visits.  getProcessInfo is modelled by
the environment info : pid to (ppid, comm), with none for a read/parse error. -/

/-- Loop body of SteamDetector.findGameRoot; pid0 is the originally detected
pid kept for the fallback returns, prev the previously visited pid, current the
pid under inspection, fuel the remaining loop iterations (10 at the start). -/
def findGameRootAux (info : Int → Option (Int × String)) :
    Nat → Int → Int → Int → Int
  | 0, pid0, _, _ => pid0
  | fuel + 1, pid0, prev, current =>
    match info current with
    | none => pid0
    | some (ppid, name) =>
      if strContains name "wineserver" then current
      else if strContains name "reaper" then prev
      else if ppid ≤ 1 then pid0
      else findGameRootAux info fuel pid0 current ppid

/-- Embeds SteamDetector.findGameRoot (internal/detector/steam.go 121-151). -/
def findGameRoot (info : Int → Option (Int × String)) (pid : Int) : Int :=
  findGameRootAux info 10 pid pid pid

/-- Process chain for the wineserver example: detected pid 10, its parent 8 is
the wineserver, above it a plain child 6 of the reaper 4. -/
def chainWineInfo : Int → Option (Int × String) := fun p =>
  if p = 10 then some (8, "game.exe")
  else if p = 8 then some (6, "wineserver")
  else if p = 6 then some (4, "child")
  else if p = 4 then some (1, "reaper")
  else none

/-- Process chain for the reaper example: detected pid 20 is a direct child of
the reaper 5; no wineserver anywhere in the chain. -/
def chainReaperInfo : Int → Option (Int × String) := fun p =>
  if p = 20 then some (5, "game.exe")
  else if p = 5 then some (2, "reaper")
  else if p = 2 then some (1, "steam")
  else none

/-- An unbounded unmatched parent chain, to exercise the 10-visit depth bound. -/
def deepChainInfo : Int → Option (Int × String) := fun p => some (p + 2, "proc")

/-- A chain whose detected process itself is the reaper. -/
def reaperStartInfo : Int → Option (Int × String) := fun p =>
  if p = 7 then some (1, "reaper") else none

/-! ## findAllDescendants (internal/power/manager.go 403-464)

The Go code scans /proc once, builds a parent to children table (one (pid,
ppid) edge per scanned process, so every pid occurs at most once among all the
child lists), then breadth-first traverses from the root with a work queue
until the queue drains.  The table built by the scan is the input here; the
unbounded while loop is modelled with a fuel of one more than the total number
of child entries, which the completeness theorem shows suffices on acyclic
tables. -/

/-- Lookup in the parent to children table; absent parents have no children. -/
def treeOf (al : List (Int × List Int)) (p : Int) : List Int :=
  match al.lookup p with
  | some l => l
  | none => []

/-- All child entries of the table; for a table derived from one /proc scan
this list has no duplicates. -/
def allChildren (al : List (Int × List Int)) : List Int :=
  (al.map Prod.snd).flatten

/-- The while loop of findAllDescendants: pop the queue front, emit its
children, push them at the back. -/
def bfsAux (tree : Int → List Int) : Nat → List Int → List Int
  | 0, _ => []
  | _ + 1, [] => []
  | fuel + 1, c :: q => tree c ++ bfsAux tree fuel (q ++ tree c)

/-- Embeds findAllDescendants (internal/power/manager.go 403-464). -/
def findAllDescendants (al : List (Int × List Int)) (root : Int) : List Int :=
  bfsAux (treeOf al) ((allChildren al).length + 1) [root]

/-- x is a transitive child of p in the table: the specification-side meaning
of descendant. -/
inductive Desc (tree : Int → List Int) : Int → Int → Prop
  | direct {p x : Int} : x ∈ tree p → Desc tree p x
  | step {p y x : Int} : y ∈ tree p → Desc tree y x → Desc tree p x

/-- The concrete parent/child table of the spec example. -/
def exampleTable : List (Int × List Int) := [(1, [2]), (2, [3, 4]), (4, [5])]

/-! ## Idle ticker (internal/monitor/idle.go 249-279)

One tick compares now - lastActivity against the timeout (in whole seconds) and
fires the idle/active callback only on a flag change. -/

/-- Observable outcome of one ticker iteration: the new flag and which
callbacks fired. -/
structure TickResult where
  isIdle : Bool
  firedIdle : Bool
  firedActive : Bool
  deriving DecidableEq

/-- Embeds one iteration of IdleMonitor.runTicker (internal/monitor/idle.go
259-276). -/
def runTickerStep (timeout : Int) (isIdle : Bool) (now last : Int) : TickResult :=
  let diff := now - last
  if diff ≥ timeout then
    if !isIdle then { isIdle := true, firedIdle := true, firedActive := false }
    else { isIdle := true, firedIdle := false, firedActive := false }
  else
    if isIdle then { isIdle := false, firedIdle := false, firedActive := true }
    else { isIdle := false, firedIdle := false, firedActive := false }

/-- Runs the ticker over a list of (now, lastActivity) samples, returning the
final flag and the total number of onIdle and onActive invocations. -/
def runTickerTrace (timeout : Int) : Bool → List (Int × Int) → Bool × Nat × Nat
  | b, [] => (b, 0, 0)
  | b, (now, last) :: ts =>
    let r := runTickerStep timeout b now last
    let rest := runTickerTrace timeout r.isIdle ts
    (rest.1, (if r.firedIdle then 1 else 0) + rest.2.1,
      (if r.firedActive then 1 else 0) + rest.2.2)

/-- The sequence of idle-flag values the ticker goes through on a trace. -/
def flagSeq (timeout : Int) : Bool → List (Int × Int) → List Bool
  | _, [] => []
  | b, (now, last) :: ts =>
    let b2 := (runTickerStep timeout b now last).isIdle
    b2 :: flagSeq timeout b2 ts

/-- Number of false-to-true crossings in a flag sequence, given the flag value
before the sequence starts. -/
def risingCount : Bool → List Bool → Nat
  | _, [] => 0
  | prev, b :: bs => (if b && !prev then 1 else 0) + risingCount b bs

/-- Number of true-to-false crossings in a flag sequence, given the flag value
before the sequence starts. -/
def fallingCount : Bool → List Bool → Nat
  | _, [] => 0
  | prev, b :: bs => (if !b && prev then 1 else 0) + fallingCount b bs

/-! ## Input event filter (internal/monitor/idle.go 171-223)

One successful read of n bytes into buf either advances the shared activity
clock or is discarded.  Joystick records (path containing "js", at least 8
bytes) are filtered on the init bit and the axis deadzone. -/

/-- Little-endian signed 16-bit value at offsets 4-5 of a joystick record. -/
def jsValue (buf : List Nat) : Int :=
  let raw := buf.getD 4 0 + 256 * buf.getD 5 0
  if raw ≥ 32768 then (raw : Int) - 65536 else (raw : Int)

/-- Embeds the read-filtering of IdleMonitor.watchDevice (internal/monitor/
idle.go 186-213): true iff the read advances lastActivity. -/
def watchDeviceAdvances (path : String) (n : Nat) (buf : List Nat) : Bool :=
  if n = 0 then false
  else if strContains path "js" && decide (n ≥ 8) then
    if buf.getD 6 0 &&& 0x80 ≠ 0 then false
    else if buf.getD 6 0 &&& 0x7F = 2 then
      if -4000 < jsValue buf ∧ jsValue buf < 4000 then false else true
    else true
  else true

/-! ## PowerManager mode application (internal/power/manager.go 121-192)

The externally visible side effects of SetPerformance / SetPowersave are
modelled as an ordered action list; the scheduler switch is emitted only when
scxctl is installed (commandExists, passed as a flag). -/

inductive PMAction
  | profileSet (profile : String)
  | cpuPref (pref : String)
  | schedSwitch (mode : String)
  | aspm (policy : String)
  | disableLatency
  | powertopTune
  deriving DecidableEq

/-- Result of a mode-apply call: the resulting mode string, the external
actions issued in order, and the returned error. -/
structure PMResult where
  mode : String
  actions : List PMAction
  err : Option String
  deriving DecidableEq

/-- Embeds PowerManager.SetPerformance (internal/power/manager.go 121-155). -/
def SetPerformance (scxctlExists : Bool) (currentMode : String)
    (reason : String) : PMResult :=
  if currentMode = "performance" then
    { mode := currentMode, actions := [], err := none }
  else
    { mode := "performance"
      actions := [PMAction.profileSet "performance",
          PMAction.cpuPref "balance_performance"]
        ++ (if scxctlExists then [PMAction.schedSwitch "gaming"] else [])
        ++ [PMAction.aspm "performance", PMAction.disableLatency]
      err := none }

/-- Embeds PowerManager.SetPowersave (internal/power/manager.go 158-192). -/
def SetPowersave (scxctlExists : Bool) (currentMode : String)
    (reason : String) : PMResult :=
  if currentMode = "powersave" then
    { mode := currentMode, actions := [], err := none }
  else
    { mode := "powersave"
      actions := [PMAction.profileSet "power-saver", PMAction.cpuPref "power"]
        ++ (if scxctlExists then [PMAction.schedSwitch "powersave"] else [])
        ++ [PMAction.aspm "powersupersave", PMAction.powertopTune]
      err := none }

/-! ## Power telemetry aggregator (internal/power/monitor.go 30-156)

float64 wattages are modelled as rationals; the 168-element Go array is a list
kept at length 168; time is in seconds, so an hour is 3600.  A turbostat line
is the list of its already-parsed numeric columns (a failed parse in Go yields
0, and missing columns leave the previous value in place, exactly as the
length guards below do). -/

structure PowerMetrics where
  pkgWatt : ℚ
  corWatt : ℚ
  gfxWatt : ℚ
  ramWatt : ℚ
  deriving DecidableEq

structure PowerMonitorState where
  current : PowerMetrics
  hourlyEnergy : List ℚ
  hourIndex : Nat
  lastHourTime : Int
  deriving DecidableEq

structure PowerStatus where
  current : PowerMetrics
  energy24hkWh : ℚ
  energy7dkWh : ℚ
  deriving DecidableEq

/-- Embeds NewPowerMonitor (internal/power/monitor.go 44-48): zeroed ring,
cursor 0, current bucket started now. -/
def initMonitor (t0 : Int) : PowerMonitorState :=
  { current := { pkgWatt := 0, corWatt := 0, gfxWatt := 0, ramWatt := 0 }
    hourlyEnergy := List.replicate 168 0
    hourIndex := 0
    lastHourTime := t0 }

/-- Embeds PowerMonitor.updateCPUMetrics (internal/power/monitor.go 94-125). -/
def updateCPUMetrics (s : PowerMonitorState) (now : Int) (parts : List ℚ) :
    PowerMonitorState :=
  let cur1 := if parts.length > 0 then
    { s.current with pkgWatt := parts.getD 0 0 } else s.current
  let cur2 := if parts.length > 1 then
    { cur1 with corWatt := parts.getD 1 0 } else cur1
  let cur3 := if parts.length > 2 then
    { cur2 with ramWatt := parts.getD 2 0 } else cur2
  let energyJoules := (cur3.pkgWatt + cur3.corWatt + cur3.ramWatt) * 1
  if now - s.lastHourTime ≥ 3600 then
    let idx := (s.hourIndex + 1) % 168
    let zeroed := s.hourlyEnergy.set idx 0
    { current := cur3
      hourlyEnergy := zeroed.set idx (zeroed.getD idx 0 + energyJoules)
      hourIndex := idx
      lastHourTime := now }
  else
    { current := cur3
      hourlyEnergy := s.hourlyEnergy.set s.hourIndex
        (s.hourlyEnergy.getD s.hourIndex 0 + energyJoules)
      hourIndex := s.hourIndex
      lastHourTime := s.lastHourTime }

/-- The backward 24-bucket walk of GetStatus: start at the cursor, decrement,
wrap below 0 to 167. -/
def walkBack (buckets : List ℚ) : Nat → Nat → ℚ
  | _, 0 => 0
  | idx, k + 1 =>
    buckets.getD idx 0 + walkBack buckets (if idx = 0 then 167 else idx - 1) k

/-- Embeds PowerMonitor.GetStatus (internal/power/monitor.go 128-156). -/
def GetStatus (s : PowerMonitorState) : PowerStatus :=
  { current := s.current
    energy24hkWh := walkBack s.hourlyEnergy s.hourIndex 24 / 3600000
    energy7dkWh := s.hourlyEnergy.sum / 3600000 }

/-- Feeds n identical samples with a fixed wall clock (all inside the same
hour window). -/
def feedSamples (now : Int) (parts : List ℚ) : Nat → PowerMonitorState → PowerMonitorState
  | 0, s => s
  | n + 1, s => feedSamples now parts n (updateCPUMetrics s now parts)

/-- Feeds n samples, each exactly one hour after the current bucket started,
so each one crosses an hour boundary. -/
def rollSamples (parts : List ℚ) : Nat → PowerMonitorState → PowerMonitorState
  | 0, s => s
  | n + 1, s => rollSamples parts n (updateCPUMetrics s (s.lastHourTime + 3600) parts)

end FrameworkPowerd

namespace FrameworkPowerd

/-- C1: one evaluation of updatePowerState: remote-play plus game suppresses
idle (performance, no pause, no powersave); otherwise idle forces powersave and
pauses a running unpaused game with positive pid; otherwise resume happens
exactly when the pauser is paused and performance is applied, with reason
"Game/Remote Active" when a game or remote play is active and the default
active reason (also performance) otherwise. -/
theorem C1_updatePowerState_policy :
    ∀ (idle rp game : Bool) (pid : Int) (paused : Bool),
      (rp = true → game = true →
        (updatePowerState idle rp game pid paused).modeSet = Mode.performance ∧
        (updatePowerState idle rp game pid paused).pauseInvoked = false) ∧
      ((rp && game) = false → idle = true →
        (updatePowerState idle rp game pid paused).modeSet = Mode.powersave ∧
        (updatePowerState idle rp game pid paused).pauseInvoked
          = (game && decide (pid > 0) && !paused) ∧
        (updatePowerState idle rp game pid paused).resumeInvoked = false) ∧
      (idle = false →
        (updatePowerState idle rp game pid paused).resumeInvoked = paused ∧
        (updatePowerState idle rp game pid paused).modeSet = Mode.performance ∧
        (updatePowerState idle rp game pid paused).reason
          = (if (game || rp) = true then "Game/Remote Active" else "Active Usage")) := by
  intro idle rp game pid paused
  cases idle <;> cases rp <;> cases game <;> cases paused <;>
    simp [updatePowerState]

/-- Witness for C1 at a concrete input: remote play with a running game while
idle keeps performance and does not pause. -/
theorem C1_witness :
    (updatePowerState true true true 5 false).modeSet = Mode.performance ∧
    (updatePowerState true true true 5 false).pauseInvoked = false :=
  (C1_updatePowerState_policy true true true 5 false).1 rfl rfl

/-- C2: pauser transitions: Pause while paused is a silent no-op; Pause while
running with a positive root stops the root and all descendants and records
exactly that list; Resume while running is a no-op; Resume while paused
continues every recorded pid and clears; hence pausing twice sends stop signals
only on the first call and IsPaused holds after either. -/
theorem C2_pauser_transitions :
    ∀ (desc : Int → List Int) (s : PauserState) (r : Int),
      (s.isPaused = true →
        ProcessPauser.Pause desc s r = { state := s, signals := [], err := none }) ∧
      (s.isPaused = false → r > 0 →
        ProcessPauser.Pause desc s r =
          { state := { isPaused := true, pausedPIDs := r :: desc r }
            signals := (r :: desc r).map (fun p => (p, Sig.stop))
            err := none }) ∧
      (s.isPaused = false →
        ProcessPauser.Resume s = { state := s, signals := [], err := none }) ∧
      (s.isPaused = true →
        ProcessPauser.Resume s =
          { state := { isPaused := false, pausedPIDs := [] }
            signals := s.pausedPIDs.map (fun p => (p, Sig.cont))
            err := none }) ∧
      (s.isPaused = false → r > 0 →
        (ProcessPauser.Pause desc
            (ProcessPauser.Pause desc s r).state r).signals = [] ∧
        ProcessPauser.IsPaused (ProcessPauser.Pause desc s r).state = true ∧
        ProcessPauser.IsPaused
          (ProcessPauser.Pause desc (ProcessPauser.Pause desc s r).state r).state
            = true) := by
  intro desc s r
  refine ⟨?_, ?_, ?_, ?_, ?_⟩ <;> intro h
  · simp [ProcessPauser.Pause, h]
  · intro hr
    simp [ProcessPauser.Pause, h, not_le.mpr hr]
  · simp [ProcessPauser.Resume, h]
  · simp [ProcessPauser.Resume, h]
  · intro hr
    simp [ProcessPauser.Pause, ProcessPauser.IsPaused, h, not_le.mpr hr]

/-- Witness for C2 at a concrete input: pausing pid 7 from the running state
with one descendant 9 stops both and records them. -/
theorem C2_witness :
    ProcessPauser.Pause (fun _ => [9]) { isPaused := false, pausedPIDs := [] } 7 =
      { state := { isPaused := true, pausedPIDs := [7, 9] }
        signals := [(7, Sig.stop), (9, Sig.stop)]
        err := none } :=
  (C2_pauser_transitions (fun _ => [9]) { isPaused := false, pausedPIDs := [] } 7).2.1
    rfl (by norm_num)

/-- C10: Pause with a non-positive root pid while running fails atomically:
error returned, no signals, state untouched; while already paused the validity
check is never reached and nil is returned. -/
theorem C10_pause_invalid_pid :
    ∀ (desc : Int → List Int) (s : PauserState) (r : Int),
      (s.isPaused = false → r ≤ 0 →
        ProcessPauser.Pause desc s r =
          { state := s, signals := [], err := some "invalid pid" }) ∧
      (s.isPaused = true →
        (ProcessPauser.Pause desc s r).err = none ∧
        (ProcessPauser.Pause desc s r).state = s) := by
  intro desc s r
  constructor
  · intro h hr
    simp [ProcessPauser.Pause, h, hr]
  · intro h
    simp [ProcessPauser.Pause, h]

/-- Witness for C10 at a concrete input: pausing pid -5 from the running state
errors and leaves the state unchanged. -/
theorem C10_witness :
    ProcessPauser.Pause (fun _ => []) { isPaused := false, pausedPIDs := [] } (-5) =
      { state := { isPaused := false, pausedPIDs := [] }
        signals := []
        err := some "invalid pid" } :=
  (C10_pause_invalid_pid (fun _ => []) { isPaused := false, pausedPIDs := [] } (-5)).1
    rfl (by norm_num)

/-- C3 counterexample: when the detected process itself has a command name
containing "reaper", findGameRoot returns that very pid — the reaper itself —
because prev is initialised to the starting pid. -/
theorem C3_counterexample :
    findGameRoot reaperStartInfo 7 = 7 ∧
    reaperStartInfo 7 = some (1, "reaper") ∧
    strContains "reaper" "reaper" = true := by
  refine ⟨?_, rfl, ?_⟩ <;> decide

/-- C3 amended: findGameRoot walks up the parent chain for at most 10 visits;
a visited wineserver is returned itself, an unreadable process or a parent id
at most 1 falls back to the detected pid, a visited reaper yields the
previously visited pid — which is the detected pid itself when the walk starts
at the reaper; the concrete chains resolve as the spec describes and an
unmatched chain exhausts the depth bound and falls back to the detected pid. -/
theorem C3_find_game_root :
    ∀ (info : Int → Option (Int × String)) (pid : Int) (ppid : Int) (name : String),
      (info pid = none → findGameRoot info pid = pid) ∧
      (info pid = some (ppid, name) → strContains name "wineserver" = true →
        findGameRoot info pid = pid) ∧
      (info pid = some (ppid, name) → strContains name "wineserver" = false →
        strContains name "reaper" = true → findGameRoot info pid = pid) ∧
      (info pid = some (ppid, name) → strContains name "wineserver" = false →
        strContains name "reaper" = false → ppid ≤ 1 →
        findGameRoot info pid = pid) ∧
      (findGameRoot chainWineInfo 10 = 8 ∧
       findGameRoot chainReaperInfo 20 = 20 ∧
       findGameRoot deepChainInfo 100 = 100) := by
  intro info pid ppid name
  refine ⟨?_, ?_, ?_, ?_, by decide, by decide, by decide⟩
  · intro h
    simp [findGameRoot, findGameRootAux, h]
  · intro h hw
    simp [findGameRoot, findGameRootAux, h, hw]
  · intro h hw hr
    simp [findGameRoot, findGameRootAux, h, hw, hr]
  · intro h hw hr hp
    simp [findGameRoot, findGameRootAux, h, hw, hr, hp]

/-- Witness for C3 at a concrete input: a process whose info cannot be read
resolves to the detected pid. -/
theorem C3_witness : findGameRoot (fun _ => none) 33 = 33 :=
  (C3_find_game_root (fun _ => none) 33 0 "").1 rfl

/-- C5 counterexample: with the pauser believing Paused and the stat file
unreadable, SyncState leaves the state Paused with its recorded pids — it does
not adopt Running and clear the set as the claim states; and on content whose
final byte is the closing paren the Go slice bound at manager.go:376 panics
(the crash outcome none), again not adopting Running. -/
theorem C5_counterexample :
    ProcessPauser.SyncState (fun _ => []) (fun _ => none)
        { isPaused := true, pausedPIDs := [42] } 42
      = some { isPaused := true, pausedPIDs := [42] } ∧
    ProcessPauser.SyncState (fun _ => []) (fun _ => some "12 (x)")
        { isPaused := true, pausedPIDs := [42] } 42
      = none := by
  refine ⟨rfl, ?_⟩
  decide

/-- C5 amended: SyncState adopts Paused with the repopulated set on a parsed
state "T" and adopts Running with a cleared set on any other parsed state;
when the stat file cannot be read or contains no closing paren it returns
early with the prior state unchanged; when the closing paren is the final
byte of the content the slice bound panics (crash outcome); when the slice is
in bounds but no field follows the paren it returns early with the prior
state unchanged. -/
theorem C5_sync_state :
    ∀ (desc : Int → List Int) (statRead : Int → Option String)
      (s : PauserState) (r : Int) (str : String) (i : Nat)
      (st : String) (rest : List String),
      (statRead r = none → ProcessPauser.SyncState desc statRead s r = some s) ∧
      (statRead r = some str → lastIdxOf ')' str.data = none →
        ProcessPauser.SyncState desc statRead s r = some s) ∧
      (statRead r = some str → lastIdxOf ')' str.data = some i →
        str.data.length < i + 2 →
        ProcessPauser.SyncState desc statRead s r = none) ∧
      (statRead r = some str → lastIdxOf ')' str.data = some i →
        i + 2 ≤ str.data.length →
        goFields (String.mk (str.data.drop (i + 2))) = [] →
        ProcessPauser.SyncState desc statRead s r = some s) ∧
      (statRead r = some str → lastIdxOf ')' str.data = some i →
        i + 2 ≤ str.data.length →
        goFields (String.mk (str.data.drop (i + 2))) = st :: rest →
        st = "T" →
        ProcessPauser.SyncState desc statRead s r
          = some { isPaused := true, pausedPIDs := r :: desc r }) ∧
      (statRead r = some str → lastIdxOf ')' str.data = some i →
        i + 2 ≤ str.data.length →
        goFields (String.mk (str.data.drop (i + 2))) = st :: rest →
        st ≠ "T" →
        ProcessPauser.SyncState desc statRead s r
          = some { isPaused := false, pausedPIDs := [] }) := by
  intro desc statRead s r str i st rest
  refine ⟨?_, ?_, ?_, ?_, ?_, ?_⟩
  · intro h
    simp [ProcessPauser.SyncState, h]
  · intro h hp
    simp [ProcessPauser.SyncState, h, hp]
  · intro h hp hb
    have hb2 : str.length < i + 2 := hb
    simp [ProcessPauser.SyncState, h, hp, hb2]
  · intro h hp hb hf
    have hb2 : ¬ str.length < i + 2 := not_lt.mpr hb
    simp [ProcessPauser.SyncState, h, hp, hb2, hf]
  · intro h hp hb hf hT
    have hb2 : ¬ str.length < i + 2 := not_lt.mpr hb
    simp [ProcessPauser.SyncState, h, hp, hb2, hf, hT]
  · intro h hp hb hf hT
    have hb2 : ¬ str.length < i + 2 := not_lt.mpr hb
    simp [ProcessPauser.SyncState, h, hp, hb2, hf, hT]

/-- Witness for C5 at a concrete input: a stat line reporting state T makes
SyncState adopt Paused with the root and its descendants recorded. -/
theorem C5_witness :
    ProcessPauser.SyncState (fun _ => [44]) (fun _ => some "31 (game) T 9 0")
        { isPaused := false, pausedPIDs := [] } 31
      = some { isPaused := true, pausedPIDs := [31, 44] } :=
  (C5_sync_state (fun _ => [44]) (fun _ => some "31 (game) T 9 0")
      { isPaused := false, pausedPIDs := [] } 31 "31 (game) T 9 0" 8
      "T" ["9", "0"]).2.2.2.2.1 rfl (by decide) (by decide) (by decide) rfl

/-- One ticker step fires onIdle exactly when the flag rises and onActive
exactly when it falls. -/
theorem runTickerStep_fired (timeout : Int) (b : Bool) (now last : Int) :
    (runTickerStep timeout b now last).firedIdle
        = ((runTickerStep timeout b now last).isIdle && !b) ∧
      (runTickerStep timeout b now last).firedActive
        = (!(runTickerStep timeout b now last).isIdle && b) := by
  by_cases h : now - last ≥ timeout <;> cases b <;>
    simp [runTickerStep, h]

/-- Over a trace, the number of onIdle and onActive invocations equals the
number of rising and falling crossings of the flag sequence. -/
theorem runTickerTrace_counts (timeout : Int) :
    ∀ (ts : List (Int × Int)) (b : Bool),
      (runTickerTrace timeout b ts).2.1 = risingCount b (flagSeq timeout b ts) ∧
      (runTickerTrace timeout b ts).2.2 = fallingCount b (flagSeq timeout b ts) := by
  intro ts
  induction ts with
  | nil => intro b; simp [runTickerTrace, flagSeq, risingCount, fallingCount]
  | cons p ts ih =>
    intro b
    obtain ⟨now, last⟩ := p
    have hf := runTickerStep_fired timeout b now last
    simp only [runTickerTrace, flagSeq, risingCount, fallingCount,
      (ih (runTickerStep timeout b now last).isIdle).1,
      (ih (runTickerStep timeout b now last).isIdle).2, hf.1, hf.2]
    exact ⟨trivial, trivial⟩

/-- C6: the idle state machine is edge-triggered: after a tick the flag equals
the comparison now - last at least timeout, onIdle fires exactly on a rising
edge, onActive exactly on a falling edge, no callback fires when the flag does
not change, and over a whole trace the callback counts equal the number of
rising and falling crossings. -/
theorem C6_idle_edge_triggered :
    ∀ (timeout : Int) (b : Bool) (now last : Int) (ts : List (Int × Int)),
      ((runTickerStep timeout b now last).isIdle = decide (now - last ≥ timeout)) ∧
      ((runTickerStep timeout b now last).firedIdle
        = (decide (now - last ≥ timeout) && !b)) ∧
      ((runTickerStep timeout b now last).firedActive
        = (!decide (now - last ≥ timeout) && b)) ∧
      ((runTickerStep timeout b now last).isIdle = b →
        (runTickerStep timeout b now last).firedIdle = false ∧
        (runTickerStep timeout b now last).firedActive = false) ∧
      ((runTickerTrace timeout b ts).2.1 = risingCount b (flagSeq timeout b ts) ∧
       (runTickerTrace timeout b ts).2.2 = fallingCount b (flagSeq timeout b ts)) := by
  intro timeout b now last ts
  refine ⟨?_, ?_, ?_, ?_, runTickerTrace_counts timeout ts b⟩ <;>
    by_cases h : now - last ≥ timeout <;> cases b <;>
      simp [runTickerStep, h]

/-- Witness for C6 at a concrete input: a tick that leaves the flag idle fires
no callback (timeout 5, already idle, 10 idle seconds). -/
theorem C6_witness :
    (runTickerStep 5 true 10 0).firedIdle = false ∧
    (runTickerStep 5 true 10 0).firedActive = false :=
  (C6_idle_edge_triggered 5 true 10 0 []).2.2.2.1 (by decide)

/-- C7: joystick records with the init bit set and axis records inside the
open deadzone (-4000, 4000) do not advance the activity clock; every other
joystick record does, and every successful non-empty read on a non-joystick
node does. -/
theorem C7_joystick_filter :
    ∀ (path : String) (n : Nat) (buf : List Nat),
      (strContains path "js" = true → n ≥ 8 →
        (buf.getD 6 0 &&& 0x80 ≠ 0 → watchDeviceAdvances path n buf = false) ∧
        (buf.getD 6 0 &&& 0x80 = 0 → buf.getD 6 0 &&& 0x7F = 2 →
          -4000 < jsValue buf → jsValue buf < 4000 →
          watchDeviceAdvances path n buf = false) ∧
        (buf.getD 6 0 &&& 0x80 = 0 → buf.getD 6 0 &&& 0x7F = 2 →
          ¬(-4000 < jsValue buf ∧ jsValue buf < 4000) →
          watchDeviceAdvances path n buf = true) ∧
        (buf.getD 6 0 &&& 0x80 = 0 → buf.getD 6 0 &&& 0x7F ≠ 2 →
          watchDeviceAdvances path n buf = true)) ∧
      (strContains path "js" = false → n ≥ 1 →
        watchDeviceAdvances path n buf = true) := by
  intro path n buf
  constructor
  · intro hjs hn
    have hn0 : ¬ n = 0 := by omega
    have hcond : (strContains path "js" && decide (n ≥ 8)) = true := by
      simp [hjs, hn]
    refine ⟨?_, ?_, ?_, ?_⟩
    · intro hinit
      unfold watchDeviceAdvances
      rw [if_neg hn0, if_pos hcond, if_pos hinit]
    · intro hinit haxis hlo hhi
      unfold watchDeviceAdvances
      rw [if_neg hn0, if_pos hcond, if_neg (not_not_intro hinit), if_pos haxis,
        if_pos ⟨hlo, hhi⟩]
    · intro hinit haxis hdead
      unfold watchDeviceAdvances
      rw [if_neg hn0, if_pos hcond, if_neg (not_not_intro hinit), if_pos haxis,
        if_neg hdead]
    · intro hinit haxis
      unfold watchDeviceAdvances
      rw [if_neg hn0, if_pos hcond, if_neg (not_not_intro hinit), if_neg haxis]
  · intro hjs hn
    have hn0 : ¬ n = 0 := by omega
    have hcond : (strContains path "js" && decide (n ≥ 8)) = false := by
      simp [hjs]
    unfold watchDeviceAdvances
    rw [if_neg hn0, if_neg (by simp [hcond])]

/-- Witness for C7 at a concrete input: an 8-byte joystick record with the
init bit set (type byte 0x82) is discarded. -/
theorem C7_witness :
    watchDeviceAdvances "/dev/input/js0" 8 [0, 0, 0, 0, 0, 0, 130, 0] = false :=
  ((C7_joystick_filter "/dev/input/js0" 8 [0, 0, 0, 0, 0, 0, 130, 0]).1
    (by decide) (by decide)).1 (by decide)

/-- C8: applying a mode that is already applied is a pure no-op: nil result,
mode unchanged, no external actions; two consecutive SetPerformance calls issue
the profile-set action exactly once when the mode was not already performance,
and the second call never issues any action. -/
theorem C8_mode_idempotence :
    ∀ (sc : Bool) (m reason reason2 : String),
      (SetPerformance sc "performance" reason
        = { mode := "performance", actions := [], err := none }) ∧
      (SetPowersave sc "powersave" reason
        = { mode := "powersave", actions := [], err := none }) ∧
      ((SetPerformance sc (SetPerformance sc m reason).mode reason2).actions = []) ∧
      (m ≠ "performance" →
        (SetPerformance sc m reason).actions.count
            (PMAction.profileSet "performance")
          + (SetPerformance sc (SetPerformance sc m reason).mode reason2).actions.count
              (PMAction.profileSet "performance") = 1) := by
  intro sc m reason reason2
  refine ⟨by simp [SetPerformance], by simp [SetPowersave], ?_, ?_⟩
  · by_cases hm : m = "performance" <;> cases sc <;>
      simp [SetPerformance, hm]
  · intro hm
    cases sc <;> simp [SetPerformance, hm, List.count_cons, List.count_append]

/-- Witness for C8 at a concrete input: switching from powersave, two
consecutive SetPerformance calls issue exactly one profile-set action. -/
theorem C8_witness :
    (SetPerformance true "powersave" "game started").actions.count
        (PMAction.profileSet "performance")
      + (SetPerformance true
          (SetPerformance true "powersave" "game started").mode "again").actions.count
          (PMAction.profileSet "performance") = 1 :=
  (C8_mode_idempotence true "powersave" "game started" "again").2.2.2 (by decide)

/-- Appending one more edge at the end of a descendant path. -/
theorem Desc.tail {tree : Int → List Int} {p y x : Int}
    (h : Desc tree p y) (hx : x ∈ tree y) : Desc tree p x := by
  induction h with
  | direct hm => exact Desc.step hm (Desc.direct hx)
  | step hm _ ih => exact Desc.step hm (ih hx)

/-- Every descendant path ends with an edge: either a direct child, or a
child of an intermediate descendant. -/
theorem Desc.last_edge {tree : Int → List Int} {p x : Int} (h : Desc tree p x) :
    x ∈ tree p ∨ ∃ y, Desc tree p y ∧ x ∈ tree y := by
  induction h with
  | direct hm => exact Or.inl hm
  | step hm _ ih =>
    rcases ih with hx | ⟨y, hy, hxy⟩
    · exact Or.inr ⟨_, Desc.direct hm, hx⟩
    · exact Or.inr ⟨y, Desc.step hm hy, hxy⟩

/-- Soundness of the BFS loop: everything it emits is a descendant of some
queue element, whatever the fuel. -/
theorem bfsAux_sound (tree : Int → List Int) :
    ∀ (fuel : Nat) (q : List Int) (x : Int),
      x ∈ bfsAux tree fuel q → ∃ r ∈ q, Desc tree r x := by
  intro fuel
  induction fuel with
  | zero => intro q x hx; simp [bfsAux] at hx
  | succ f ih =>
    intro q x hx
    match q with
    | [] => simp [bfsAux] at hx
    | c :: q' =>
      simp only [bfsAux] at hx
      rcases List.mem_append.mp hx with h | h
      · exact ⟨c, List.mem_cons_self c q', Desc.direct h⟩
      · rcases ih _ _ h with ⟨r, hr, hd⟩
        rcases List.mem_append.mp hr with hr | hr
        · exact ⟨r, List.mem_cons_of_mem _ hr, hd⟩
        · exact ⟨c, List.mem_cons_self c q', Desc.step hr hd⟩

/-- Completeness of the BFS loop on finite acyclic tables in which every node
has at most one parent and child lists have no duplicates: every descendant of
a queue element is emitted, provided the fuel covers the queue plus the pool
rem of children that may still be enqueued. -/
theorem bfsAux_complete (tree : Int → List Int)
    (huniq : ∀ x p p', x ∈ tree p → x ∈ tree p' → p = p')
    (hnd : ∀ p, (tree p).Nodup)
    (hacyc : ∀ x, ¬ Desc tree x x) :
    ∀ (fuel : Nat) (q : List Int) (rem : Finset Int),
      q.Nodup →
      (∀ c ∈ q, c ∉ rem) →
      (∀ a ∈ q, ∀ b ∈ q, ¬ Desc tree a b) →
      (∀ p, (∃ r ∈ q, r = p ∨ Desc tree r p) → ∀ x ∈ tree p, x ∈ rem) →
      q.length + rem.card ≤ fuel →
      ∀ r ∈ q, ∀ x, Desc tree r x → x ∈ bfsAux tree fuel q := by
  intro fuel
  induction fuel with
  | zero =>
    intro q rem _ _ _ _ hfuel r hr x _
    match q, hr, hfuel with
    | [], hr, _ => exact absurd hr (List.not_mem_nil r)
    | c :: q', _, hfuel => simp at hfuel
  | succ f ih =>
    intro q rem hq hqr hpair hreach hfuel r hr x hdx
    match q, hq, hqr, hpair, hreach, hfuel, hr with
    | [], _, _, _, _, _, hr => exact absurd hr (List.not_mem_nil r)
    | c :: q', hq, hqr, hpair, hreach, hfuel, hr =>
      have hcq' : c ∉ q' := (List.nodup_cons.mp hq).1
      have hq' : q'.Nodup := (List.nodup_cons.mp hq).2
      have hcmem : c ∈ c :: q' := List.mem_cons_self c q'
      have htc_sub : ∀ z ∈ tree c, z ∈ rem :=
        hreach c ⟨c, hcmem, Or.inl rfl⟩
      have hfinsub : (tree c).toFinset ⊆ rem :=
        fun z hz => htc_sub z (List.mem_toFinset.mp hz)
      -- the new queue and the shrunken pool
      have hN1 : (q' ++ tree c).Nodup := by
        refine List.nodup_append.mpr ⟨hq', hnd c, ?_⟩
        intro a ha hatc
        exact hpair c hcmem a (List.mem_cons_of_mem _ ha) (Desc.direct hatc)
      have hN2 : ∀ z ∈ q' ++ tree c, z ∉ rem \ (tree c).toFinset := by
        intro z hz hzrem
        rcases List.mem_append.mp hz with hz | hz
        · exact hqr z (List.mem_cons_of_mem _ hz) (Finset.mem_sdiff.mp hzrem).1
        · exact (Finset.mem_sdiff.mp hzrem).2 (List.mem_toFinset.mpr hz)
      have hN3 : ∀ a ∈ q' ++ tree c, ∀ b ∈ q' ++ tree c, ¬ Desc tree a b := by
        intro a ha b hb hd
        rcases List.mem_append.mp ha with ha | ha <;>
          rcases List.mem_append.mp hb with hb | hb
        · exact hpair a (List.mem_cons_of_mem _ ha) b (List.mem_cons_of_mem _ hb) hd
        · rcases Desc.last_edge hd with hba | ⟨y, hay, hby⟩
          · exact hcq' (huniq b a c hba hb ▸ ha)
          · exact hpair a (List.mem_cons_of_mem _ ha) c hcmem
              (huniq b y c hby hb ▸ hay)
        · exact hpair c hcmem b (List.mem_cons_of_mem _ hb) (Desc.step ha hd)
        · rcases Desc.last_edge hd with hba | ⟨y, hay, hby⟩
          · exact hacyc c (Desc.direct (huniq b a c hba hb ▸ ha))
          · exact hacyc c (Desc.step ha (huniq b y c hby hb ▸ hay))
      have hN4 : ∀ p, (∃ r ∈ q' ++ tree c, r = p ∨ Desc tree r p) →
          ∀ z ∈ tree p, z ∈ rem \ (tree c).toFinset := by
        rintro p ⟨r0, hr0, hcase⟩ z hz
        have hzrem : z ∈ rem := by
          rcases List.mem_append.mp hr0 with hr0q | hr0t
          · exact hreach p ⟨r0, List.mem_cons_of_mem _ hr0q, hcase⟩ z hz
          · rcases hcase with hrp | hd
            · rw [hrp] at hr0t
              exact hreach p ⟨c, hcmem, Or.inr (Desc.direct hr0t)⟩ z hz
            · exact hreach p ⟨c, hcmem, Or.inr (Desc.step hr0t hd)⟩ z hz
        have hznot : z ∉ (tree c).toFinset := by
          intro hztc
          have hpc : p = c := huniq z p c hz (List.mem_toFinset.mp hztc)
          rcases List.mem_append.mp hr0 with hr0q | hr0t
          · rcases hcase with hrp | hd
            · rw [hrp, hpc] at hr0q
              exact hcq' hr0q
            · rw [hpc] at hd
              exact hpair r0 (List.mem_cons_of_mem _ hr0q) c hcmem hd
          · rcases hcase with hrp | hd
            · rw [hrp.trans hpc] at hr0t
              exact hacyc c (Desc.direct hr0t)
            · rw [hpc] at hd
              exact hacyc c (Desc.step hr0t hd)
        exact Finset.mem_sdiff.mpr ⟨hzrem, hznot⟩
      have hN5 : (q' ++ tree c).length + (rem \ (tree c).toFinset).card ≤ f := by
        have hcard : (rem \ (tree c).toFinset).card
            = rem.card - (tree c).toFinset.card := Finset.card_sdiff hfinsub
        have hlen : (tree c).toFinset.card = (tree c).length :=
          List.toFinset_card_of_nodup (hnd c)
        have hle : (tree c).toFinset.card ≤ rem.card := Finset.card_le_card hfinsub
        have hq_len : (c :: q').length = q'.length + 1 := by simp
        rw [List.length_append, hcard, hlen]
        rw [hq_len] at hfuel
        omega
      simp only [bfsAux]
      rcases List.mem_cons.mp hr with hrc | hr
      · rw [hrc] at hdx
        cases hdx with
        | direct hm => exact List.mem_append.mpr (Or.inl hm)
        | step hm hd =>
          refine List.mem_append.mpr (Or.inr ?_)
          exact ih (q' ++ tree c) (rem \ (tree c).toFinset) hN1 hN2 hN3 hN4 hN5
            _ (List.mem_append.mpr (Or.inr hm)) x hd
      · refine List.mem_append.mpr (Or.inr ?_)
        exact ih (q' ++ tree c) (rem \ (tree c).toFinset) hN1 hN2 hN3 hN4 hN5
          r (List.mem_append.mpr (Or.inl hr)) x hdx

/-- A successful lookup yields a contiguous chunk of the concatenated child
lists. -/
theorem lookup_chunk :
    ∀ (al : List (Int × List Int)) (p : Int) (l : List Int),
      al.lookup p = some l → ∃ pre post, allChildren al = pre ++ l ++ post := by
  intro al
  induction al with
  | nil => intro p l h; simp [List.lookup] at h
  | cons kv t ih =>
    intro p l h
    obtain ⟨k, v⟩ := kv
    by_cases hk : p = k
    · have hv : v = l := by
        simpa [List.lookup, hk] using h
      subst hv
      exact ⟨[], allChildren t, by simp [allChildren]⟩
    · have ht : t.lookup p = some l := by
        simpa [List.lookup, beq_eq_false_iff_ne.mpr hk] using h
      rcases ih p l ht with ⟨pre, post, heq⟩
      exact ⟨v ++ pre, post, by simp [allChildren] at heq ⊢; simp [heq]⟩

/-- In a table with globally duplicate-free child lists, the child lists of
two distinct parents are disjoint. -/
theorem lookup_disjoint :
    ∀ (al : List (Int × List Int)), (allChildren al).Nodup →
      ∀ (p p' : Int) (l l' : List Int), p ≠ p' →
        al.lookup p = some l → al.lookup p' = some l' →
        ∀ x, x ∈ l → x ∈ l' → False := by
  intro al
  induction al with
  | nil => intro _ p p' l l' _ h; simp [List.lookup] at h
  | cons kv t ih =>
    intro hnd p p' l l' hne h h' x hx hx'
    obtain ⟨k, v⟩ := kv
    have hnd' : (v ++ allChildren t).Nodup := by
      simpa [allChildren] using hnd
    rcases List.nodup_append.mp hnd' with ⟨hv, hts, hdisj⟩
    by_cases hk : p = k <;> by_cases hk' : p' = k
    · exact hne (hk.trans hk'.symm)
    · have hv_l : v = l := by simpa [List.lookup, hk] using h
      have ht' : t.lookup p' = some l' := by
        simpa [List.lookup, beq_eq_false_iff_ne.mpr hk'] using h'
      rcases lookup_chunk t p' l' ht' with ⟨pre, post, heq⟩
      refine hdisj (hv_l ▸ hx) ?_
      rw [heq]
      simp [hx']
    · have hv_l : v = l' := by simpa [List.lookup, hk'] using h'
      have ht : t.lookup p = some l := by
        simpa [List.lookup, beq_eq_false_iff_ne.mpr hk] using h
      rcases lookup_chunk t p l ht with ⟨pre, post, heq⟩
      refine hdisj (hv_l ▸ hx') ?_
      rw [heq]
      simp [hx]
    · have ht : t.lookup p = some l := by
        simpa [List.lookup, beq_eq_false_iff_ne.mpr hk] using h
      have ht' : t.lookup p' = some l' := by
        simpa [List.lookup, beq_eq_false_iff_ne.mpr hk'] using h'
      exact ih hts p p' l l' hne ht ht' x hx hx'

/-- Unique parents: with duplicate-free concatenated child lists, a pid occurs
in the child list of at most one parent. -/
theorem treeOf_uniq (al : List (Int × List Int))
    (hjoin : (allChildren al).Nodup) :
    ∀ x p p', x ∈ treeOf al p → x ∈ treeOf al p' → p = p' := by
  intro x p p' hp hp'
  by_contra hne
  rcases hl : al.lookup p with _ | l
  · rw [treeOf, hl] at hp; exact absurd hp (List.not_mem_nil x)
  · rcases hl' : al.lookup p' with _ | l'
    · rw [treeOf, hl'] at hp'; exact absurd hp' (List.not_mem_nil x)
    · rw [treeOf, hl] at hp
      rw [treeOf, hl'] at hp'
      exact lookup_disjoint al hjoin p p' l l' hne hl hl' x hp hp'

/-- Each child list of the table is itself duplicate-free when the
concatenation of all of them is. -/
theorem treeOf_nodup (al : List (Int × List Int))
    (hjoin : (allChildren al).Nodup) : ∀ p, (treeOf al p).Nodup := by
  intro p
  rcases hl : al.lookup p with _ | l
  · rw [treeOf, hl]; exact List.nodup_nil
  · rw [treeOf, hl]
    rcases lookup_chunk al p l hl with ⟨pre, post, heq⟩
    rw [heq, List.append_assoc] at hjoin
    exact (List.Nodup.of_append_right hjoin).of_append_left

/-- Every table child is in the concatenated child list. -/
theorem treeOf_mem_allChildren (al : List (Int × List Int)) :
    ∀ p x, x ∈ treeOf al p → x ∈ allChildren al := by
  intro p x hx
  rcases hl : al.lookup p with _ | l
  · rw [treeOf, hl] at hx; exact absurd hx (List.not_mem_nil x)
  · rw [treeOf, hl] at hx
    rcases lookup_chunk al p l hl with ⟨pre, post, heq⟩
    rw [heq]
    simp [hx]

/-- A table whose edges strictly increase the pid has no descendant cycles. -/
theorem desc_irrefl_of_lt (tree : Int → List Int)
    (hlt : ∀ p x, x ∈ tree p → p < x) : ∀ y, ¬ Desc tree y y := by
  have hmono : ∀ p x, Desc tree p x → p < x := by
    intro p x hd
    induction hd with
    | direct hm => exact hlt _ _ hm
    | step hm _ ih => exact lt_trans (hlt _ _ hm) ih
  intro y hy
  exact absurd (hmono y y hy) (lt_irrefl y)

/-- The edges of the concrete example table. -/
theorem exampleTable_lt : ∀ p x, x ∈ treeOf exampleTable p → p < x := by
  intro p x hx
  by_cases h1 : p = 1
  · subst h1
    have h : treeOf exampleTable 1 = [2] := rfl
    rw [h] at hx
    simp at hx
    omega
  · by_cases h2 : p = 2
    · subst h2
      have h : treeOf exampleTable 2 = [3, 4] := rfl
      rw [h] at hx
      simp at hx
      rcases hx with rfl | rfl <;> omega
    · by_cases h4 : p = 4
      · subst h4
        have h : treeOf exampleTable 4 = [5] := rfl
        rw [h] at hx
        simp at hx
        omega
      · have h : exampleTable.lookup p = none := by
          simp [exampleTable, List.lookup, beq_eq_false_iff_ne.mpr h1,
            beq_eq_false_iff_ne.mpr h2, beq_eq_false_iff_ne.mpr h4]
        rw [treeOf, h] at hx
        exact absurd hx (List.not_mem_nil x)

/-- C4: on every acyclic table coming from one process scan (so the
concatenated child lists carry no duplicate pid), findAllDescendants returns
exactly the transitive children of the root, the root itself excluded; on the
concrete table of the spec the result for root 2 is [3, 4, 5]. -/
theorem C4_find_all_descendants :
    ∀ (al : List (Int × List Int)) (root : Int),
      ((allChildren al).Nodup → (∀ y, ¬ Desc (treeOf al) y y) →
        (∀ x, x ∈ findAllDescendants al root ↔ Desc (treeOf al) root x) ∧
        root ∉ findAllDescendants al root) ∧
      findAllDescendants exampleTable 2 = [3, 4, 5] := by
  intro al root
  refine ⟨?_, by decide⟩
  intro hjoin hacyc
  have hiff : ∀ x, x ∈ findAllDescendants al root ↔ Desc (treeOf al) root x := by
    intro x
    constructor
    · intro hx
      rcases bfsAux_sound (treeOf al) _ _ _ hx with ⟨r, hr, hd⟩
      rcases List.mem_cons.mp hr with rfl | hr
      · exact hd
      · exact absurd hr (List.not_mem_nil r)
    · intro hd
      refine bfsAux_complete (treeOf al) (treeOf_uniq al hjoin)
        (treeOf_nodup al hjoin) hacyc _ [root]
        ((allChildren al).toFinset \ {root}) (List.nodup_singleton root)
        ?_ ?_ ?_ ?_ root (List.mem_singleton_self root) x hd
      · intro c hc
        rcases List.mem_singleton.mp hc with rfl
        simp
      · intro a ha b hb
        have ha_eq : a = root := List.mem_singleton.mp ha
        have hb_eq : b = root := List.mem_singleton.mp hb
        rw [ha_eq, hb_eq]
        exact hacyc root
      · rintro p ⟨r, hrq, hcase⟩ z hz
        have hr_eq : r = root := List.mem_singleton.mp hrq
        rw [hr_eq] at hcase
        refine Finset.mem_sdiff.mpr
          ⟨List.mem_toFinset.mpr (treeOf_mem_allChildren al p z hz), ?_⟩
        intro hzr
        have hz_eq : z = root := Finset.mem_singleton.mp hzr
        rw [hz_eq] at hz
        rcases hcase with hrp | hd'
        · rw [← hrp] at hz
          exact hacyc root (Desc.direct hz)
        · exact hacyc root (Desc.tail hd' hz)
      · have h1 : ((allChildren al).toFinset \ {root}).card
            ≤ (allChildren al).toFinset.card :=
          Finset.card_le_card (Finset.sdiff_subset)
        have h2 : (allChildren al).toFinset.card ≤ (allChildren al).length :=
          List.toFinset_card_le (allChildren al)
        simp only [List.length_singleton]
        omega
  refine ⟨hiff, ?_⟩
  intro hroot
  exact hacyc root ((hiff root).mp hroot)

/-- Witness for C4 at the concrete table: its concatenated child list
[2, 3, 4, 5] has no duplicates, edges increase pids so the table is acyclic,
and 5 is reported as a transitive child of 2. -/
theorem C4_witness :
    Desc (treeOf exampleTable) 2 5 :=
  ((C4_find_all_descendants exampleTable 2).1 (by decide)
      (desc_irrefl_of_lt _ exampleTable_lt)).1 5 |>.mp (by decide)

/-- Setting a slot to zero makes reading it yield zero, also (via the default)
past the end of the list. -/
theorem getD_set_zero (l : List ℚ) : ∀ i : Nat, ((l.set i 0).getD i 0) = 0 := by
  induction l with
  | nil => intro i; simp
  | cons a t ih =>
    intro i
    cases i with
    | zero => simp
    | succ j => simpa using ih j

/-- Reading back a just-written slot inside the list bounds. -/
theorem getD_set_self_lt (l : List ℚ) (v : ℚ) :
    ∀ i, i < l.length → (l.set i v).getD i 0 = v := by
  induction l with
  | nil => intro i h; simp at h
  | cons a t ih =>
    intro i h
    cases i with
    | zero => simp
    | succ j => simpa using ih j (by simpa using h)

/-- Writing one slot leaves every other slot unchanged. -/
theorem getD_set_ne (l : List ℚ) (v : ℚ) :
    ∀ i j, i ≠ j → (l.set i v).getD j 0 = l.getD j 0 := by
  induction l with
  | nil => intro i j _; simp
  | cons a t ih =>
    intro i j hne
    cases i with
    | zero =>
      cases j with
      | zero => exact absurd rfl hne
      | succ j2 => simp
    | succ i2 =>
      cases j with
      | zero => simp
      | succ j2 => simpa using ih i2 j2 (fun h => hne (by rw [h]))

/-- Writing back the value already present changes nothing. -/
theorem list_set_getD (l : List ℚ) : ∀ i, l.set i (l.getD i 0) = l := by
  induction l with
  | nil => intro i; simp
  | cons a t ih =>
    intro i
    cases i with
    | zero => simp
    | succ j => simpa using ih j

/-- Zeroing a slot that already reads zero changes nothing. -/
theorem set_zero_eq_self (l : List ℚ) (i : Nat) (h : l.getD i 0 = 0) :
    l.set i 0 = l := by
  rw [← h]
  exact list_set_getD l i

/-- Every slot of an all-zero ring reads zero. -/
theorem getD_replicate_zero : ∀ (n j : Nat), (List.replicate n (0:ℚ)).getD j 0 = 0 := by
  intro n
  induction n with
  | zero => intro j; simp
  | succ m ih =>
    intro j
    cases j with
    | zero => simp [List.replicate]
    | succ j2 => simpa [List.replicate] using ih j2

/-- Summing a list equals summing its reads by index. -/
theorem sum_getD_range (l : List ℚ) :
    ∑ i in Finset.range l.length, l.getD i 0 = l.sum := by
  induction l with
  | nil => simp
  | cons a t ih =>
    rw [List.length_cons, Finset.sum_range_succ']
    simp only [List.getD_cons_succ, List.getD_cons_zero]
    rw [ih, List.sum_cons, add_comm]

/-- The backward bucket walk of GetStatus equals the modular-index sum of the
claim for up to one full lap. -/
theorem walkBack_eq (b : List ℚ) :
    ∀ (k : Nat), k ≤ 168 → ∀ (idx : Nat), idx < 168 →
      walkBack b idx k = ∑ i in Finset.range k, b.getD ((idx + 168 - i) % 168) 0 := by
  intro k
  induction k with
  | zero => intro _ idx _; simp [walkBack]
  | succ k ih =>
    intro hk idx hidx
    rw [walkBack, Finset.sum_range_succ']
    have h0 : (idx + 168 - 0) % 168 = idx := by omega
    rw [h0]
    rw [Finset.sum_congr rfl (fun i hi => by
      have hik : i < k := Finset.mem_range.mp hi
      have harg : (idx + 168 - (i + 1)) % 168
          = ((if idx = 0 then 167 else idx - 1) + 168 - i) % 168 := by
        by_cases h : idx = 0 <;> simp only [h, if_true, if_false] <;> omega
      rw [harg])]
    rw [ih (by omega) (if idx = 0 then 167 else idx - 1)
      (by by_cases h : idx = 0 <;> simp only [h, if_true, if_false] <;> omega)]
    exact add_comm _ _

/-- One sample inside the current hour window: the current bucket accumulates
the summed wattage and nothing else moves. -/
theorem update_no_roll (s : PowerMonitorState) (now : Int) (p c r : ℚ)
    (h : now - s.lastHourTime < 3600) :
    updateCPUMetrics s now [p, c, r] =
      { current := { pkgWatt := p, corWatt := c, gfxWatt := s.current.gfxWatt
                     ramWatt := r }
        hourlyEnergy := s.hourlyEnergy.set s.hourIndex
          (s.hourlyEnergy.getD s.hourIndex 0 + (p + c + r))
        hourIndex := s.hourIndex
        lastHourTime := s.lastHourTime } := by
  simp [updateCPUMetrics, not_le.mpr h]

/-- One sample after the hour elapsed: the cursor advances modulo 168, the new
bucket is zeroed and then receives the sample, the bucket clock resets. -/
theorem update_roll (s : PowerMonitorState) (now : Int) (p c r : ℚ)
    (h : now - s.lastHourTime ≥ 3600) :
    updateCPUMetrics s now [p, c, r] =
      { current := { pkgWatt := p, corWatt := c, gfxWatt := s.current.gfxWatt
                     ramWatt := r }
        hourlyEnergy := (s.hourlyEnergy.set ((s.hourIndex + 1) % 168) 0).set
          ((s.hourIndex + 1) % 168) (p + c + r)
        hourIndex := (s.hourIndex + 1) % 168
        lastHourTime := now } := by
  have hz : ((s.hourlyEnergy.set ((s.hourIndex + 1) % 168) 0)[(s.hourIndex + 1) % 168]?).getD 0
      = (0:ℚ) := by
    have h2 := getD_set_zero s.hourlyEnergy ((s.hourIndex + 1) % 168)
    simpa [List.getD_eq_getElem?_getD] using h2
  simp [updateCPUMetrics, h, hz]

/-- Feeding n further 100-watt samples inside the same hour adds 100n joules
to bucket 0. -/
theorem feedSamples_const (t0 : Int) :
    ∀ (n : Nat) (v : ℚ),
      feedSamples t0 [100, 0, 0] n
        { current := { pkgWatt := 100, corWatt := 0, gfxWatt := 0, ramWatt := 0 }
          hourlyEnergy := (List.replicate 168 (0:ℚ)).set 0 v
          hourIndex := 0
          lastHourTime := t0 }
      = { current := { pkgWatt := 100, corWatt := 0, gfxWatt := 0, ramWatt := 0 }
          hourlyEnergy := (List.replicate 168 (0:ℚ)).set 0 (v + 100 * n)
          hourIndex := 0
          lastHourTime := t0 } := by
  intro n
  induction n with
  | zero =>
    intro v
    have h : v + 100 * ((0 : Nat) : ℚ) = v := by norm_num
    rw [h]
    rfl
  | succ n ih =>
    intro v
    rw [feedSamples]
    rw [update_no_roll _ t0 100 0 0 (by norm_num)]
    have hg : ((List.replicate 168 (0:ℚ)).set 0 v).getD 0 0 = v :=
      getD_set_self_lt _ v 0 (by simp)
    simp only [hg, List.set_set]
    rw [ih (v + (100 + 0 + 0))]
    have harith : v + (100 + 0 + 0) + 100 * (n : ℚ) = v + 100 * ((n + 1 : Nat) : ℚ) := by
      push_cast
      ring
    rw [harith]

/-- 3600 samples of 100 W inside one hour from a fresh monitor leave 360000 J
in bucket 0. -/
theorem feed3600 (t0 : Int) :
    feedSamples t0 [100, 0, 0] 3600 (initMonitor t0)
      = { current := { pkgWatt := 100, corWatt := 0, gfxWatt := 0, ramWatt := 0 }
          hourlyEnergy := (List.replicate 168 (0:ℚ)).set 0 360000
          hourIndex := 0
          lastHourTime := t0 } := by
  rw [show (3600 : Nat) = 3599 + 1 by norm_num]
  rw [feedSamples]
  rw [update_no_roll (initMonitor t0) t0 100 0 0 (by norm_num [initMonitor])]
  simp only [initMonitor]
  rw [getD_replicate_zero 168 0]
  norm_num
  rw [feedSamples_const t0 3599 100]
  norm_num

/-- Unfolding the tail of a roll run: the last hourly sample is applied to the
state the previous rolls produced. -/
theorem rollSamples_succ (parts : List ℚ) :
    ∀ (n : Nat) (s : PowerMonitorState),
      rollSamples parts (n + 1) s
        = updateCPUMetrics (rollSamples parts n s)
            ((rollSamples parts n s).lastHourTime + 3600) parts := by
  intro n
  induction n with
  | zero => intro s; rfl
  | succ n ih =>
    intro s
    rw [rollSamples, ih, rollSamples]

/-- Rolling m hours (m up to 167) with zero-watt samples from the loaded ring
only moves the cursor and the bucket clock: every zeroed bucket was already
zero. -/
theorem roll_from_full (t0 : Int) :
    ∀ (m : Nat), 1 ≤ m → m ≤ 167 →
      rollSamples [0, 0, 0] m
        { current := { pkgWatt := 100, corWatt := 0, gfxWatt := 0, ramWatt := 0 }
          hourlyEnergy := (List.replicate 168 (0:ℚ)).set 0 360000
          hourIndex := 0
          lastHourTime := t0 }
      = { current := { pkgWatt := 0, corWatt := 0, gfxWatt := 0, ramWatt := 0 }
          hourlyEnergy := (List.replicate 168 (0:ℚ)).set 0 360000
          hourIndex := m
          lastHourTime := t0 + 3600 * m } := by
  have hset : ∀ j : Nat, j ≠ 0 →
      ((List.replicate 168 (0:ℚ)).set 0 360000).set j 0
        = (List.replicate 168 (0:ℚ)).set 0 360000 := by
    intro j hj
    refine set_zero_eq_self _ j ?_
    rw [getD_set_ne _ _ 0 j (fun h => hj h.symm)]
    exact getD_replicate_zero 168 j
  intro m
  induction m with
  | zero => intro h; exact absurd h (by norm_num)
  | succ m ih =>
    intro _ hle
    by_cases hm : m = 0
    · subst hm
      rw [rollSamples_succ]
      simp only [rollSamples]
      rw [update_roll _ _ 0 0 0 (by norm_num)]
      norm_num [List.set_set, hset 1 (by norm_num)]
    · have h1m : 1 ≤ m := Nat.one_le_iff_ne_zero.mpr hm
      rw [rollSamples_succ, ih h1m (by omega)]
      rw [update_roll _ _ 0 0 0 (by norm_num)]
      have hmod : (m + 1) % 168 = m + 1 := Nat.mod_eq_of_lt (by omega)
      norm_num [List.set_set, hmod, hset (m + 1) (by omega)]
      try constructor
      all_goals (try push_cast) <;> (try ring) <;> omega

/-- After 169 hourly rollovers the ring is entirely zero: the original
360000 J bucket was overwritten on the 168th rollover. -/
theorem roll169_result (t0 : Int) :
    rollSamples [0, 0, 0] 169 (feedSamples t0 [100, 0, 0] 3600 (initMonitor t0))
      = { current := { pkgWatt := 0, corWatt := 0, gfxWatt := 0, ramWatt := 0 }
          hourlyEnergy := List.replicate 168 (0:ℚ)
          hourIndex := 1
          lastHourTime := t0 + 3600 * 169 } := by
  have hset0 : ((List.replicate 168 (0:ℚ)).set 0 360000).set 0 (0:ℚ)
      = List.replicate 168 (0:ℚ) := by
    rw [List.set_set]
    exact set_zero_eq_self _ 0 (getD_replicate_zero 168 0)
  have hset1 : (List.replicate 168 (0:ℚ)).set 1 (0:ℚ) = List.replicate 168 (0:ℚ) :=
    set_zero_eq_self _ 1 (getD_replicate_zero 168 1)
  have h168 : rollSamples [0, 0, 0] 168 (feedSamples t0 [100, 0, 0] 3600 (initMonitor t0))
      = { current := { pkgWatt := 0, corWatt := 0, gfxWatt := 0, ramWatt := 0 }
          hourlyEnergy := List.replicate 168 (0:ℚ)
          hourIndex := 0
          lastHourTime := t0 + 3600 * 168 } := by
    rw [feed3600]
    rw [show (168 : Nat) = 167 + 1 by norm_num]
    rw [rollSamples_succ]
    rw [roll_from_full t0 167 (by norm_num) (by norm_num)]
    rw [update_roll _ _ 0 0 0 (by norm_num)]
    norm_num [List.set_set, hset0]
    try constructor
    all_goals omega
  rw [show (169 : Nat) = 168 + 1 by norm_num]
  rw [rollSamples_succ, h168]
  rw [update_roll _ _ 0 0 0 (by norm_num)]
  norm_num [List.set_set, hset1]
  try constructor
  all_goals omega

/-- A backward walk that stays on zero buckets sums to zero. -/
theorem walkBack_zeros (b : List ℚ) (h : ∀ j, j ≠ 0 → b.getD j 0 = 0) :
    ∀ (k idx : Nat), k ≤ idx → idx < 168 → walkBack b idx k = 0 := by
  intro k
  induction k with
  | zero => intro idx _ _; rfl
  | succ k ih =>
    intro idx hk hlt
    rw [walkBack]
    have hidx0 : idx ≠ 0 := by omega
    rw [h idx hidx0, if_neg hidx0]
    rw [ih (idx - 1) (by omega) (by omega)]
    norm_num

/-- C9: each sample adds (pkg + cor + ram) joules to the current hour bucket;
after an hour the cursor advances modulo 168 and the fresh bucket is zeroed
before accumulating; GetStatus reports 24h as the backward modular walk of 24
buckets and 7d as the sum of all 168, both divided by 3600000; 3600 samples of
100 W in one hour leave 360000 J in the bucket, reported as 0.1 kWh, and after
169 further hourly rollovers the 7-day total no longer contains that energy. -/
theorem C9_energy_ring :
    ∀ (s : PowerMonitorState) (now : Int) (p c r : ℚ) (t0 : Int),
      (now - s.lastHourTime < 3600 →
        updateCPUMetrics s now [p, c, r] =
          { current := { pkgWatt := p, corWatt := c, gfxWatt := s.current.gfxWatt
                         ramWatt := r }
            hourlyEnergy := s.hourlyEnergy.set s.hourIndex
              (s.hourlyEnergy.getD s.hourIndex 0 + (p + c + r))
            hourIndex := s.hourIndex
            lastHourTime := s.lastHourTime }) ∧
      (now - s.lastHourTime ≥ 3600 →
        updateCPUMetrics s now [p, c, r] =
          { current := { pkgWatt := p, corWatt := c, gfxWatt := s.current.gfxWatt
                         ramWatt := r }
            hourlyEnergy := (s.hourlyEnergy.set ((s.hourIndex + 1) % 168) 0).set
              ((s.hourIndex + 1) % 168) (p + c + r)
            hourIndex := (s.hourIndex + 1) % 168
            lastHourTime := now }) ∧
      (s.hourlyEnergy.length = 168 →
        (GetStatus s).energy7dkWh
          = (∑ i in Finset.range 168, s.hourlyEnergy.getD i 0) / 3600000) ∧
      (s.hourIndex < 168 →
        (GetStatus s).energy24hkWh
          = (∑ i in Finset.range 24,
              s.hourlyEnergy.getD ((s.hourIndex + 168 - i) % 168) 0) / 3600000) ∧
      ((feedSamples t0 [100, 0, 0] 3600 (initMonitor t0)).hourlyEnergy.getD 0 0
          = 360000 ∧
        (GetStatus (feedSamples t0 [100, 0, 0] 3600 (initMonitor t0))).energy24hkWh
          = 1 / 10 ∧
        (GetStatus (rollSamples [0, 0, 0] 169
            (feedSamples t0 [100, 0, 0] 3600 (initMonitor t0)))).energy7dkWh = 0) := by
  intro s now p c r t0
  refine ⟨update_no_roll s now p c r, update_roll s now p c r, ?_, ?_, ?_, ?_, ?_⟩
  · intro h
    simp only [GetStatus]
    rw [← h, sum_getD_range]
  · intro h
    simp only [GetStatus]
    rw [walkBack_eq s.hourlyEnergy 24 (by norm_num) s.hourIndex h]
  · rw [feed3600]
    exact getD_set_self_lt _ 360000 0 (by simp)
  · rw [feed3600]
    have h1 : ∀ j, j ≠ 0 → ((List.replicate 168 (0:ℚ)).set 0 360000).getD j 0 = 0 := by
      intro j hj
      rw [getD_set_ne _ _ 0 j (fun hh => hj hh.symm)]
      exact getD_replicate_zero 168 j
    have hwb : walkBack ((List.replicate 168 (0:ℚ)).set 0 360000) 0 24 = 360000 := by
      rw [show (24 : Nat) = 23 + 1 from rfl]
      rw [walkBack]
      rw [if_pos rfl]
      rw [getD_set_self_lt _ _ 0 (by simp)]
      rw [walkBack_zeros _ h1 23 167 (by omega) (by omega)]
      norm_num
    simp only [GetStatus, hwb]
    norm_num
  · rw [roll169_result]
    simp [GetStatus, List.sum_replicate]

/-- Witness for C9 at a concrete input: one 2+3+4 W sample right after start
accumulates 9 J into bucket 0 and moves nothing else. -/
theorem C9_witness :
    updateCPUMetrics (initMonitor 0) 0 [2, 3, 4] =
      { current := { pkgWatt := 2, corWatt := 3
                     gfxWatt := (initMonitor 0).current.gfxWatt, ramWatt := 4 }
        hourlyEnergy := (initMonitor 0).hourlyEnergy.set (initMonitor 0).hourIndex
          ((initMonitor 0).hourlyEnergy.getD (initMonitor 0).hourIndex 0 + (2 + 3 + 4))
        hourIndex := (initMonitor 0).hourIndex
        lastHourTime := (initMonitor 0).lastHourTime } :=
  (C9_energy_ring (initMonitor 0) 0 2 3 4 0).1 (by norm_num [initMonitor])

end FrameworkPowerd
